import Mathlib

/-!
# Verification of the moray object write pipeline (`lib/objects/put.js`)

A shallow embedding of the write path of the moray document store:
index projection (`_indexObject` / `_index`), content-derived version
tokens (`_createEtag` = CRC-32 + 8-digit hex), the pre/post hook-chain
protocol (`runPreChain`), the insert/update statement builders, and the
eight-step `vasync.pipeline` orchestration in `put`.

JavaScript values that can appear in a write request's `value` document
are modelled by `JSVal` (documents arrive as parsed JSON, so functions
cannot occur; `vundefined` models the `undefined` produced by a missing
property lookup).  JavaScript object mutation (`ndx[k] = v`) is modelled
by in-place replacement on association lists (`setKey`), which preserves
JavaScript's key insertion order.

The collaborators that live in `lib/objects/common.js` (not part of the
sources under verification: `loadBucket`, `selectForUpdate`, `checkEtag`,
`runPostChain`) and the database handle `pg.query` are modelled from the
specification, as an explicit environment of fallible functions.
-/

/-- JavaScript values occurring in documents: the JSON universe plus
`undefined` (the result of a missing property access).  Numbers are
modelled as integers (the only numeric documents the claims exercise). -/
inductive JSVal where
  | vundefined : JSVal
  | vnull : JSVal
  | vbool (b : Bool) : JSVal
  | vnum (n : Int) : JSVal
  | vstr (s : String) : JSVal
  | varr (elems : List JSVal) : JSVal
  | vobj (fields : List (String × JSVal)) : JSVal
  deriving Repr

/-- JavaScript `typeof`. -/
def jsTypeof : JSVal → String
  | .vundefined => "undefined"
  | .vnull => "object"
  | .vbool _ => "boolean"
  | .vnum _ => "number"
  | .vstr _ => "string"
  | .varr _ => "object"
  | .vobj _ => "object"

/-- Is the value the JavaScript `undefined`? (`v !== undefined` test). -/
def isUndefined : JSVal → Bool
  | .vundefined => true
  | _ => false

/-- JavaScript string conversion `v + ''` as applied in the projection
switch.  Only the `boolean` / `string` / `number` branches of the switch
reach it; the other cases are given their JavaScript conversions for
completeness but are dead code there. -/
def jsPlusEmpty : JSVal → String
  | .vbool b => cond b "true" "false"
  | .vstr s => s
  | .vnum n => toString n
  | .vnull => "null"
  | .vundefined => "undefined"
  | .varr _ => ""
  | .vobj _ => "[object Object]"

/-- Property lookup inside an object literal: first binding wins
(JavaScript objects cannot hold duplicate keys). -/
def lookupField : List (String × JSVal) → String → JSVal
  | [], _ => .vundefined
  | (k', v) :: rest, k => if k' = k then v else lookupField rest k

/-- JavaScript property access `object[k]`; a missing property is
`undefined`.  (`_indexObject` asserts its argument is an object.) -/
def objGet : JSVal → String → JSVal
  | .vobj fields, k => lookupField fields k
  | _, _ => .vundefined

/-- JavaScript object assignment `ndx[k] = v` on a string-valued map:
replace in place when the key exists (preserving insertion order),
append otherwise. -/
def setKey : List (String × String) → String → String → List (String × String)
  | [], k, v => [(k, v)]
  | (k', v') :: rest, k, v =>
      if k' = k then (k, v) :: rest else (k', v') :: setKey rest k v

/-- Association lookup on the projection map (`req.index[k]`), `none`
modelling the `undefined` of a missing key. -/
def jsGet : List (String × String) → String → Option String
  | [], _ => none
  | (k', v) :: rest, k => if k' = k then some v else jsGet rest k

/-- The error taxonomy of the write path: `InvalidIndexTypeError` thrown
by the projector, the concurrency-conflict error of the etag
precondition, and pass-through errors of external collaborators
(database, hooks). -/
inductive MorayError where
  | invalidIndexType (field expectedType : String) : MorayError
  | etagConflict (bucket key expected actual : String) : MorayError
  | external (msg : String) : MorayError
  deriving Repr, DecidableEq

/-- One entry of a bucket's index schema (`schema[k].type`). -/
structure IndexField where
  type : String
  deriving Repr, DecidableEq

/-- The fall-through `switch (typeof v)` at the end of `_index`:
scalars are stringified into the projection, everything else is a
no-op. -/
def indexSwitch (k : String) (v : JSVal) (ndx : List (String × String)) :
    List (String × String) :=
  match jsTypeof v with
  | "boolean" => setKey ndx k (jsPlusEmpty v)
  | "string" => setKey ndx k (jsPlusEmpty v)
  | "number" => setKey ndx k (jsPlusEmpty v)
  | _ => ndx

mutual

/-- The inner `_index(k, v, t)` of `_indexObject`, with the mutated
projection map `ndx` threaded explicitly and a thrown
`InvalidIndexTypeError` modelled as `Except.error`.  Mirrors the source:
only when the value is defined and its `typeof` differs from the
declared type is the `object` family examined — arrays recurse over
their elements, `null` returns without projecting, any other object
throws; every other value falls through to the stringifying switch. -/
def _index (k : String) (v : JSVal) (t : String) (ndx : List (String × String)) :
    Except MorayError (List (String × String)) :=
  if !isUndefined v && jsTypeof v != t then
    if jsTypeof v == "object" then
      match v with
      | .varr elems => _indexArr k elems t ndx
      | .vnull => .ok ndx
      | _ => .error (.invalidIndexType k t)
    else
      .ok (indexSwitch k v ndx)
  else
    .ok (indexSwitch k v ndx)

/-- `v.forEach(function (v2) { _index(k, v2, t); })` — sequential
processing of array elements; a thrown error aborts the iteration. -/
def _indexArr (k : String) (vs : List JSVal) (t : String)
    (ndx : List (String × String)) : Except MorayError (List (String × String)) :=
  match vs with
  | [] => .ok ndx
  | v :: rest =>
      match _index k v t ndx with
      | .ok ndx' => _indexArr k rest t ndx'
      | .error e => .error e

end

/-- The `Object.keys(schema).forEach` loop of `_indexObject`: project
each declared field in schema order, aborting on a thrown error. -/
def indexFields : List (String × IndexField) → JSVal → List (String × String) →
    Except MorayError (List (String × String))
  | [], _, ndx => .ok ndx
  | (k, f) :: rest, obj, ndx =>
      match _index k (objGet obj k) f.type ndx with
      | .ok ndx' => indexFields rest obj ndx'
      | .error e => .error e

/-- `_indexObject(schema, object)`: an empty schema short-circuits to an
empty projection; otherwise every declared field is projected into a
fresh map. -/
def _indexObject (schema : List (String × IndexField)) (object : JSVal) :
    Except MorayError (List (String × String)) :=
  if schema.length = 0 then .ok []
  else indexFields schema object []

example : _indexObject [("tag", ⟨"string"⟩)]
    (.vobj [("tag", .varr [.vstr "a", .vstr "b"])]) = .ok [("tag", "b")] := rfl

example : _indexObject [("age", ⟨"number"⟩)]
    (.vobj [("age", .vstr "thirty")]) = .ok [("age", "thirty")] := rfl

example : _indexObject [("age", ⟨"number"⟩)]
    (.vobj [("age", .vobj [("x", .vnum 1)])]) =
    .error (.invalidIndexType "age" "number") := rfl

/-! ## The version token (`_createEtag`): CRC-32 and 8-digit hex -/

/-- One table entry of the reflected CRC-32 (polynomial `0xEDB88320`):
eight shift-xor rounds on a byte, as computed by the `crc` module. -/
def crcTableEntry (i : Nat) : Nat :=
  (List.range 8).foldl
    (fun r _ => if r % 2 = 1 then (r / 2) ^^^ 0xEDB88320 else r / 2)
    (i % 256)

/-- One step of the CRC-32: `crc = (crc >>> 8) ^ table[(crc ^ code) & 0xFF]`. -/
def crc32Update (crc code : Nat) : Nat :=
  (crc / 256) ^^^ crcTableEntry ((crc ^^^ code) % 256)

/-- `crc.crc32(s)`: fold the character codes of `s` through the CRC,
starting from `0xFFFFFFFF` and complementing at the end. -/
def crc32 (s : String) : Nat :=
  (s.toList.foldl (fun c ch => crc32Update c ch.toNat) 0xFFFFFFFF) ^^^ 0xFFFFFFFF

/-- A hexadecimal digit character. -/
def hexDigit (n : Nat) : Char :=
  if n < 10 then Char.ofNat (48 + n) else Char.ofNat (87 + n)

/-- `crc.hex32(n)`: the low 32 bits of `n` as an 8-digit hex string. -/
def hex32 (n : Nat) : String :=
  String.mk ((List.range 8).map (fun i => hexDigit ((n / 16 ^ (7 - i)) % 16)))

/-! ## JSON serialization (`JSON.stringify`), used by `runPreChain` -/

/-- Escape one character for a JSON string literal. -/
def jsonEscapeChar (c : Char) : String :=
  if c = '"' then "\\\""
  else if c = '\\' then "\\\\"
  else if c = '\n' then "\\n"
  else if c = '\r' then "\\r"
  else if c = '\t' then "\\t"
  else if c.toNat < 32 then
    "\\u00" ++ String.mk [hexDigit (c.toNat / 16), hexDigit (c.toNat % 16)]
  else String.mk [c]

/-- A JSON string literal. -/
def jsonQuote (s : String) : String :=
  "\"" ++ String.join (s.toList.map jsonEscapeChar) ++ "\""

mutual

/-- `JSON.stringify` on document values.  (In JavaScript a top-level
`undefined` stringifies to `undefined`, not to a string; write-request
documents are parsed JSON, so that case cannot arise and is mapped to
`"null"`, the conversion `undefined` receives inside an array.) -/
def jsonStringify : JSVal → String
  | .vnull => "null"
  | .vundefined => "null"
  | .vbool b => cond b "true" "false"
  | .vnum n => toString n
  | .vstr s => jsonQuote s
  | .varr elems => "[" ++ jsonArr elems ++ "]"
  | .vobj fields => "\x7b" ++ jsonFields fields ++ "\x7d"

/-- Array elements, comma separated (`undefined` elements become `null`
via `jsonStringify`). -/
def jsonArr : List JSVal → String
  | [] => ""
  | [v] => jsonStringify v
  | v :: w :: rest => jsonStringify v ++ "," ++ jsonArr (w :: rest)

/-- Object members, comma separated; members whose value is `undefined`
are omitted, as `JSON.stringify` omits them. -/
def jsonFields : List (String × JSVal) → String
  | [] => ""
  | (k, v) :: rest =>
      match v with
      | .vundefined => jsonFields rest
      | _ =>
          let s := jsonQuote k ++ ":" ++ jsonStringify v
          let r := jsonFields rest
          if r = "" then s else s ++ "," ++ r

end

/-! ## The write-request state and its collaborators -/

/-- A pre/post hook's shared cookie: the slice of the request a hook can
see and mutate (`runPreChain` copies only `key` and `value` back). -/
structure HookCookie where
  bucket : String
  key : String
  value : JSVal
  schema : List (String × IndexField)
  headers : List (String × String)

/-- A hook of a bucket's pre or post chain: it receives the cookie and
either finishes (possibly having mutated it) or fails. -/
def Hook := HookCookie → HookCookie × Option MorayError

/-- Bucket metadata as loaded by the `loadBucket` collaborator: name,
index schema, and the pre/post hook chains. -/
structure Bucket where
  name : String
  index : List (String × IndexField)
  pre : List Hook
  post : List Hook

/-- The row-locked existing record fetched by `selectForUpdate`
(its presence decides insert versus update). -/
structure Row where
  key : String
  _value : String
  _etag : String
  _id : Int
  deriving Repr, DecidableEq

/-- Ghost trace events recording which guarded pipeline bodies actually
executed (the insert body, the update body, a non-empty post chain). -/
inductive Event where
  | insertExec : Event
  | updateExec : Event
  | postChainExec : Event
  deriving Repr, DecidableEq

/-- The shared `arg` object threaded through the `vasync.pipeline` of
`_put`, plus the ghost `trace` of executed write bodies. -/
structure Req where
  bucket : Bucket
  etag : Option String
  key : String
  value : JSVal
  _value : String
  headers : List (String × String)
  previous : Option Row
  index : List (String × String)
  trace : List Event

/-- `_createEtag(req) = crc.hex32(crc.crc32(req._value))`. -/
def _createEtag (req : Req) : String :=
  hex32 (crc32 req._value)

/-- A value bound into a parameterized statement: a string, an integer,
or the `NaN` a failed `parseInt` produces. -/
inductive SqlVal where
  | str (s : String) : SqlVal
  | num (n : Int) : SqlVal
  | nan : SqlVal
  deriving Repr, DecidableEq

/-- A built statement: its SQL text and its bound parameter list. -/
structure Stmt where
  sql : String
  values : List SqlVal
  deriving Repr, DecidableEq

/-- JavaScript `parseInt(s, 10)`: skip leading whitespace, accept an
optional sign, read the leading run of decimal digits; no digits means
`NaN` (`none`). -/
def parseInt10 (s : String) : Option Int :=
  let cs := s.toList.dropWhile (fun c => c == ' ' || c == '\t' || c == '\n' || c == '\r')
  match cs with
  | '-' :: rest => (digitsPrefix rest).map (fun n => -(n : Int))
  | '+' :: rest => (digitsPrefix rest).map (fun n => (n : Int))
  | _ => (digitsPrefix cs).map (fun n => (n : Int))
where
  /-- The leading decimal digits of a character list, if any. -/
  digitsPrefix (cs : List Char) : Option Nat :=
    let ds := cs.takeWhile Char.isDigit
    if ds.isEmpty then none
    else some (ds.foldl (fun n c => n * 10 + (c.toNat - 48)) 0)

/-- The result of `parseInt` as a bindable value (`NaN` when it fails). -/
def jsParseIntVal (s : String) : SqlVal :=
  match parseInt10 s with
  | some n => .num n
  | none => .nan

/-- JavaScript truthiness of `req.index[k]`: a missing key
(`undefined`) and the empty string are falsy; every other projected
string is truthy. -/
def jsTruthy : Option String → Bool
  | none => false
  | some s => s != ""

/-- The environment of external collaborators: the `lib/objects/common.js`
steps' backends and the database handle, modelled from the spec as
fallible functions, plus the clock read by `_now()`. -/
structure Env where
  loadBucket : String → Except MorayError Bucket
  lockRow : String → String → Except MorayError (Option Row)
  insertQuery : Stmt → Except MorayError Int
  updateQuery : Stmt → Except MorayError Unit
  now : Nat

/-! ## Statement builders (`insert` lines 155-171, `update` lines 192-226) -/

/-- The `Object.keys(req.index).forEach` loop of `insert`: push each
projected value (a string) and extend the column / placeholder text.
`$` numbering uses `values.length` after the push, as the source does. -/
def insertCols : List (String × String) → List SqlVal → String → String →
    String × String × List SqlVal
  | [], vals, keyStr, valStr => (keyStr, valStr, vals)
  | (k, v) :: rest, vals, keyStr, valStr =>
      let vals' := vals ++ [SqlVal.str v]
      insertCols rest vals' (keyStr ++ ", " ++ k)
        (valStr ++ ", $" ++ Nat.repr vals'.length)

/-- The statement `insert` builds and hands to `pg.query`:
`INSERT INTO <bucket> (_key, _value, _etag, _mtime <index cols>) VALUES
($1, $2, $3, $4 <placeholders>) RETURNING _id`, with the key, the
serialized value, the etag, the clock, and the projected index strings
bound as parameters. -/
def buildInsert (req : Req) (now : Nat) : Stmt :=
  let base : List SqlVal :=
    [.str req.key, .str req._value, .str (_createEtag req), .num now]
  let (keyStr, valStr, values) := insertCols req.index base "" ""
  { sql := "INSERT INTO " ++ req.bucket.name ++ " (_key, _value, _etag, _mtime" ++
      keyStr ++ ") VALUES ($1, $2, $3, $4" ++ valStr ++ ") RETURNING _id",
    values := values }

/-- The `Object.keys(req.bucket.index).forEach` loop of `update`: for
every declared field emit `, <col>=`, then either a `$n` placeholder
with the type-encoded value pushed (boolean → upper-cased text,
number → `parseInt(..., 10)`, string → unchanged, other declared types
push nothing) when `req.index[k]` is truthy, or a literal `NULL`. -/
def updateCols : List (String × IndexField) → List (String × String) →
    String → List SqlVal → String × List SqlVal
  | [], _, extra, vals => (extra, vals)
  | (k, f) :: rest, ndx, extra, vals =>
      let extra1 := extra ++ ", " ++ k ++ "="
      if jsTruthy (jsGet ndx k) then
        let extra2 := extra1 ++ "$" ++ Nat.repr (vals.length + 1)
        let v := (jsGet ndx k).getD ""
        let vals2 :=
          match f.type with
          | "boolean" => vals ++ [SqlVal.str v.toUpper]
          | "number" => vals ++ [jsParseIntVal v]
          | "string" => vals ++ [SqlVal.str v]
          | _ => vals
        updateCols rest ndx extra2 vals2
      else
        updateCols rest ndx (extra1 ++ "NULL") vals

/-- The statement `update` builds and hands to `pg.query`:
`UPDATE <bucket> SET _value=$1, _etag=$2 <per-column SETs>, _mtime=<now>
WHERE _key='<key>'` — the timestamp and the key are interpolated into
the text (`%d` / `'%s'`), the value, etag and truthy index columns are
bound. -/
def buildUpdate (req : Req) (now : Nat) : Stmt :=
  let init : List SqlVal := [.str req._value, .str (_createEtag req)]
  let (extra, vals) := updateCols req.bucket.index req.index "" init
  { sql := "UPDATE " ++ req.bucket.name ++ " SET _value=$1, _etag=$2" ++ extra ++
      ", _mtime=" ++ Nat.repr now ++ " WHERE _key=\x27" ++ req.key ++ "\x27",
    values := vals }

/-! ## Pipeline steps -/

/-- `vasync.pipeline` on hook chains: run each hook in declared order on
the shared cookie, stopping at the first failure. -/
def runHooks : List Hook → HookCookie → HookCookie × Option MorayError
  | [], c => (c, none)
  | h :: rest, c =>
      match h c with
      | (c', none) => runHooks rest c'
      | (c', some e) => (c', some e)

/-- The cookie `runPreChain` builds for the hooks. -/
def cookieOf (req : Req) : HookCookie :=
  { bucket := req.bucket.name, key := req.key, value := req.value,
    schema := req.bucket.index, headers := req.headers }

/-- `runPreChain`: an empty pre chain returns immediately (leaving
`req._value` untouched); otherwise the hooks run on the cookie and, on
success only, `key` and `value` are copied back and `req._value` is
recomputed as `JSON.stringify(req.value)`. -/
def runPreChain (req : Req) : Req × Option MorayError :=
  if req.bucket.pre.length = 0 then (req, none)
  else
    match runHooks req.bucket.pre (cookieOf req) with
    | (_, some e) => (req, some e)
    | (c, none) =>
        ({ req with key := c.key, value := c.value,
                    _value := jsonStringify c.value }, none)

/-- `common.loadBucket`, modelled from the spec:
`loadBucket(name) -> BucketMetadata` — fetch the bucket's metadata
(index schema and hook chains) or fail. -/
def loadBucketStep (env : Env) (req : Req) : Req × Option MorayError :=
  match env.loadBucket req.bucket.name with
  | .ok b => ({ req with bucket := b }, none)
  | .error e => (req, some e)

/-- `common.selectForUpdate`, modelled from the spec: fetch and row-lock
any existing record for the key; its presence or absence is cached in
`req.previous` for the rest of the pipeline. -/
def selectForUpdateStep (env : Env) (req : Req) : Req × Option MorayError :=
  match env.lockRow req.bucket.name req.key with
  | .ok p => ({ req with previous := p }, none)
  | .error e => (req, some e)

/-- `common.checkEtag`, modelled from the spec: when the caller supplied
an expected version token and a row exists, a mismatch with the stored
token fails with a concurrency-conflict error before any mutation; with
no supplied token the write is unconditional. -/
def checkEtagStep (req : Req) : Req × Option MorayError :=
  match req.etag, req.previous with
  | some t, some row =>
      if row._etag = t then (req, none)
      else (req, some (.etagConflict req.bucket.name req.key t row._etag))
  | _, _ => (req, none)

/-- The `indexObject` handler: project the (possibly hook-mutated)
value against the bucket's index schema, turning a thrown
`InvalidIndexTypeError` into a step failure. -/
def indexObjectStep (req : Req) : Req × Option MorayError :=
  match _indexObject req.bucket.index req.value with
  | .ok ndx => ({ req with index := ndx }, none)
  | .error e => (req, some e)

/-- `req.value._id = result.rows[0]._id`: store the generated id on the
document (property assignment is a no-op on non-objects). -/
def setObjField (v : JSVal) (k : String) (x : JSVal) : JSVal :=
  match v with
  | .vobj fields => .vobj (setField fields k x)
  | _ => v
where
  /-- Insert-or-replace on an object's field list. -/
  setField : List (String × JSVal) → String → JSVal → List (String × JSVal)
    | [], k, x => [(k, x)]
    | (k', v') :: rest, k, x =>
        if k' = k then (k, x) :: rest else (k', v') :: setField rest k x

/-- The `insert` handler: skipped outright when a previous row was
found; otherwise (recorded by the ghost `insertExec` event) it builds
the insert statement, runs it, and on success stores the returned id on
the document. -/
def insertStep (env : Env) (req : Req) : Req × Option MorayError :=
  if req.previous.isSome then (req, none)
  else
    let req1 := { req with trace := req.trace ++ [Event.insertExec] }
    match env.insertQuery (buildInsert req env.now) with
    | .ok id => ({ req1 with value := setObjField req1.value "_id" (.vnum id) }, none)
    | .error e => (req1, some e)

/-- The `update` handler: skipped outright when no previous row was
found; otherwise (recorded by the ghost `updateExec` event) it builds
and runs the update statement. -/
def updateStep (env : Env) (req : Req) : Req × Option MorayError :=
  if req.previous.isNone then (req, none)
  else
    let req1 := { req with trace := req.trace ++ [Event.updateExec] }
    match env.updateQuery (buildUpdate req env.now) with
    | .ok _ => (req1, none)
    | .error e => (req1, some e)

/-- `common.runPostChain`, modelled from the spec: run the bucket's
post hooks in order on the shared cookie (a no-op for an empty chain,
otherwise recorded by the ghost `postChainExec` event); a hook failure
fails the step and is reported to the caller. -/
def postChainStep (req : Req) : Req × Option MorayError :=
  if req.bucket.post.length = 0 then (req, none)
  else
    let req1 := { req with trace := req.trace ++ [Event.postChainExec] }
    match runHooks req.bucket.post (cookieOf req) with
    | (_, none) => (req1, none)
    | (_, some e) => (req1, some e)

/-! ## The pipeline -/

/-- `vasync.pipeline({funcs, arg})`: run the steps in order on the
shared state, stopping at the first failure; mutations made before the
failing step persist on the shared `arg`. -/
def runSteps : List (Req → Req × Option MorayError) → Req → Req × Option MorayError
  | [], r => (r, none)
  | s :: rest, r =>
      match s r with
      | (r', none) => runSteps rest r'
      | (r', some e) => (r', some e)

/-- The fixed step list of `_put`. -/
def pipelineSteps (env : Env) : List (Req → Req × Option MorayError) :=
  [loadBucketStep env, selectForUpdateStep env, runPreChain, checkEtagStep,
   indexObjectStep, insertStep env, updateStep env, postChainStep]

/-- The options of a `putObject` call: the optional expected etag, the
caller-supplied serialization of the value, and opaque headers. -/
structure Opts where
  etag : Option String
  _value : String
  headers : List (String × String)

/-- The `arg` object `_put` seeds the pipeline with. -/
def initReq (b k : String) (v : JSVal) (opts : Opts) : Req :=
  { bucket := { name := b, index := [], pre := [], post := [] },
    etag := opts.etag, key := k, value := v, _value := opts._value,
    headers := opts.headers, previous := none, index := [], trace := [] }

/-- `_put(b, k, v, opts, res)` after the transaction started: the
eight-step pipeline on the seeded `arg`. -/
def putObject (env : Env) (b k : String) (v : JSVal) (opts : Opts) :
    Req × Option MorayError :=
  runSteps (pipelineSteps env) (initReq b k v opts)

/-! ## Step lemmas -/

theorem runSteps_cons_ok {s : Req → Req × Option MorayError}
    {rest : List (Req → Req × Option MorayError)} {r r' : Req}
    (h : s r = (r', none)) : runSteps (s :: rest) r = runSteps rest r' := by
  simp [runSteps, h]

theorem runSteps_cons_err {s : Req → Req × Option MorayError}
    {rest : List (Req → Req × Option MorayError)} {r r' : Req} {e : MorayError}
    (h : s r = (r', some e)) : runSteps (s :: rest) r = (r', some e) := by
  simp [runSteps, h]

theorem runSteps_append (l₁ l₂ : List (Req → Req × Option MorayError)) (r : Req) :
    runSteps (l₁ ++ l₂) r =
      match runSteps l₁ r with
      | (r', none) => runSteps l₂ r'
      | (r', some e) => (r', some e) := by
  induction l₁ generalizing r with
  | nil => simp [runSteps]
  | cons s rest ih =>
      rcases hs : s r with ⟨r', oe⟩
      cases oe with
      | none => simp [runSteps, hs, ih]
      | some e => simp [runSteps, hs]

/-- If a prefix of the step list already fails, the whole pipeline
returns exactly that failure: the remaining steps never run. -/
theorem runSteps_take_fail (l : List (Req → Req × Option MorayError))
    (n : Nat) (r r' : Req) (e : MorayError)
    (h : runSteps (l.take n) r = (r', some e)) :
    runSteps l r = (r', some e) := by
  have := runSteps_append (l.take n) (l.drop n) r
  rw [List.take_append_drop] at this
  rw [this, h]

theorem loadBucketStep_ok {env : Env} {r r' : Req}
    (h : loadBucketStep env r = (r', none)) :
    r'.trace = r.trace ∧ r'.previous = r.previous ∧ r'.etag = r.etag := by
  unfold loadBucketStep at h
  rcases hlb : env.loadBucket r.bucket.name with e | b <;> rw [hlb] at h <;>
    simp at h
  subst h
  simp

theorem selectForUpdateStep_ok {env : Env} {r r' : Req}
    (h : selectForUpdateStep env r = (r', none)) :
    r'.trace = r.trace ∧ r'.etag = r.etag ∧ r'.bucket = r.bucket := by
  unfold selectForUpdateStep at h
  rcases hl : env.lockRow r.bucket.name r.key with e | p <;> rw [hl] at h <;>
    simp at h
  subst h
  simp

theorem runPreChain_ok {r r' : Req} (h : runPreChain r = (r', none)) :
    r'.trace = r.trace ∧ r'.previous = r.previous ∧ r'.etag = r.etag ∧
      r'.bucket = r.bucket := by
  unfold runPreChain at h
  by_cases hp : r.bucket.pre.length = 0 <;> simp [hp] at h
  · subst h
    exact ⟨rfl, rfl, rfl, rfl⟩
  · rcases hh : runHooks r.bucket.pre (cookieOf r) with ⟨c, oe⟩
    rw [hh] at h
    cases oe with
    | none => simp at h; subst h; simp
    | some e => simp at h

theorem checkEtagStep_ok {r r' : Req} (h : checkEtagStep r = (r', none)) :
    r' = r := by
  unfold checkEtagStep at h
  rcases he : r.etag with _ | t <;> rcases hp : r.previous with _ | row <;>
    rw [he, hp] at h <;> simp at h <;> try exact h.symm
  by_cases hm : row._etag = t <;> simp [hm] at h
  exact h.symm

theorem indexObjectStep_ok {r r' : Req} (h : indexObjectStep r = (r', none)) :
    r'.trace = r.trace ∧ r'.previous = r.previous ∧ r'.bucket = r.bucket := by
  unfold indexObjectStep at h
  rcases hi : _indexObject r.bucket.index r.value with e | ndx <;> rw [hi] at h <;>
    simp at h
  subst h
  simp

theorem insertStep_skip {env : Env} {r : Req} {row : Row}
    (h : r.previous = some row) : insertStep env r = (r, none) := by
  simp [insertStep, h]

theorem insertStep_run {env : Env} {r r' : Req} {oe : Option MorayError}
    (hp : r.previous = none) (h : insertStep env r = (r', oe)) :
    r'.trace = r.trace ++ [Event.insertExec] ∧ r'.previous = none := by
  unfold insertStep at h
  rcases hq : env.insertQuery (buildInsert r env.now) with e | id <;>
    simp [hp, hq] at h <;> rcases h with ⟨h1, h2⟩ <;> subst h1 <;> simp [hp]

theorem updateStep_skip {env : Env} {r : Req}
    (h : r.previous = none) : updateStep env r = (r, none) := by
  simp [updateStep, h]

theorem updateStep_run {env : Env} {r r' : Req} {oe : Option MorayError} {row : Row}
    (hp : r.previous = some row) (h : updateStep env r = (r', oe)) :
    r'.trace = r.trace ++ [Event.updateExec] ∧ r'.previous = some row := by
  unfold updateStep at h
  rcases hq : env.updateQuery (buildUpdate r env.now) with e | u <;>
    simp [hp, hq] at h <;> rcases h with ⟨h1, h2⟩ <;> subst h1 <;> simp [hp]

theorem runPreChain_fail {r r' : Req} {e : MorayError}
    (h : runPreChain r = (r', some e)) : r' = r := by
  unfold runPreChain at h
  by_cases hp : r.bucket.pre.length = 0 <;> simp [hp] at h
  rcases hh : runHooks r.bucket.pre (cookieOf r) with ⟨c, oe⟩
  rw [hh] at h
  cases oe with
  | none => simp at h
  | some e' => simp at h; exact h.1.symm

theorem postChainStep_ok {r r' : Req} (h : postChainStep r = (r', none)) :
    r'.previous = r.previous ∧
      (r'.trace = r.trace ∨ r'.trace = r.trace ++ [Event.postChainExec]) := by
  unfold postChainStep at h
  by_cases hp : r.bucket.post.length = 0 <;> simp [hp] at h
  · subst h
    exact ⟨rfl, Or.inl rfl⟩
  · rcases hh : runHooks r.bucket.post (cookieOf r) with ⟨c, oe⟩
    rw [hh] at h
    cases oe with
    | none => simp at h; subst h; exact ⟨rfl, Or.inr rfl⟩
    | some e => simp at h


/-! ## Claim theorems -/

/-- **C1.** For every write request that completes successfully, exactly
one of the insert path and the update path executes, and the choice is
determined solely by whether a prior row for the key was found
(`req.previous`): the insert body runs exactly when no existing row was
found, the update body runs exactly when one was found, and neither is
skipped for any other reason. -/
theorem putObject_insert_update_exclusive (env : Env) (b k : String) (v : JSVal)
    (opts : Opts) (r : Req)
    (h : putObject env b k v opts = (r, none)) :
    ((Event.insertExec ∈ r.trace) ↔ r.previous = none) ∧
    ((Event.updateExec ∈ r.trace) ↔ r.previous ≠ none) := by
  unfold putObject pipelineSteps at h
  rcases h1 : loadBucketStep env (initReq b k v opts) with ⟨r1, oe1⟩
  cases oe1 with
  | some e => rw [runSteps_cons_err h1] at h; simp at h
  | none =>
    rw [runSteps_cons_ok h1] at h
    have ht1 : r1.trace = [] := (loadBucketStep_ok h1).1
    rcases h2 : selectForUpdateStep env r1 with ⟨r2, oe2⟩
    cases oe2 with
    | some e => rw [runSteps_cons_err h2] at h; simp at h
    | none =>
      rw [runSteps_cons_ok h2] at h
      have ht2 : r2.trace = [] := ((selectForUpdateStep_ok h2).1).trans ht1
      rcases h3 : runPreChain r2 with ⟨r3, oe3⟩
      cases oe3 with
      | some e => rw [runSteps_cons_err h3] at h; simp at h
      | none =>
        rw [runSteps_cons_ok h3] at h
        obtain ⟨ht3', hp3, _, _⟩ := runPreChain_ok h3
        have ht3 : r3.trace = [] := ht3'.trans ht2
        rcases h4 : checkEtagStep r3 with ⟨r4, oe4⟩
        cases oe4 with
        | some e => rw [runSteps_cons_err h4] at h; simp at h
        | none =>
          rw [runSteps_cons_ok h4] at h
          have hr4 : r4 = r3 := checkEtagStep_ok h4
          rcases h5 : indexObjectStep r4 with ⟨r5, oe5⟩
          cases oe5 with
          | some e => rw [runSteps_cons_err h5] at h; simp at h
          | none =>
            rw [runSteps_cons_ok h5] at h
            obtain ⟨ht5', hp5, _⟩ := indexObjectStep_ok h5
            have ht5 : r5.trace = [] := by rw [ht5', hr4]; exact ht3
            rcases hprev : r5.previous with _ | row
            · -- no existing row: the insert body runs, update is skipped
              rcases h6 : insertStep env r5 with ⟨r6, oe6⟩
              cases oe6 with
              | some e => rw [runSteps_cons_err h6] at h; simp at h
              | none =>
                rw [runSteps_cons_ok h6] at h
                obtain ⟨ht6, hp6⟩ := insertStep_run hprev h6
                rw [runSteps_cons_ok (updateStep_skip hp6)] at h
                rcases h8 : postChainStep r6 with ⟨r8, oe8⟩
                cases oe8 with
                | some e => rw [runSteps_cons_err h8] at h; simp at h
                | none =>
                  rw [runSteps_cons_ok h8] at h
                  simp [runSteps] at h
                  obtain ⟨hp8, ht8⟩ := postChainStep_ok h8
                  subst h
                  rcases ht8 with ht8 | ht8 <;>
                    simp [ht8, ht6, ht5, hp8, hp6]
            · -- an existing row: insert is skipped, the update body runs
              rw [runSteps_cons_ok (insertStep_skip hprev)] at h
              rcases h7 : updateStep env r5 with ⟨r7, oe7⟩
              cases oe7 with
              | some e => rw [runSteps_cons_err h7] at h; simp at h
              | none =>
                rw [runSteps_cons_ok h7] at h
                obtain ⟨ht7, hp7⟩ := updateStep_run hprev h7
                rcases h8 : postChainStep r7 with ⟨r8, oe8⟩
                cases oe8 with
                | some e => rw [runSteps_cons_err h8] at h; simp at h
                | none =>
                  rw [runSteps_cons_ok h8] at h
                  simp [runSteps] at h
                  obtain ⟨hp8, ht8⟩ := postChainStep_ok h8
                  subst h
                  rcases ht8 with ht8 | ht8 <;>
                    simp [ht8, ht7, ht5, hp8, hp7]

/-- A sample bucket with no index and no hooks. -/
def exWriteBucket : Bucket := { name := "b1", index := [], pre := [], post := [] }

/-- A sample environment in which every collaborator succeeds and no
prior row exists for any key. -/
def exWriteEnv : Env :=
  { loadBucket := fun _ => .ok exWriteBucket,
    lockRow := fun _ _ => .ok none,
    insertQuery := fun _ => .ok 1,
    updateQuery := fun _ => .ok (),
    now := 0 }

/-- Sample options: no expected etag, a caller-supplied serialization. -/
def exWriteOpts : Opts := { etag := none, _value := "\x7b\x7d", headers := [] }

/-- The final request state of the sample successful write. -/
def exWriteResult : Req := (putObject exWriteEnv "b1" "k1" (.vobj []) exWriteOpts).1

theorem putObject_insert_update_exclusive_witness :
    (Event.insertExec ∈ exWriteResult.trace ↔ exWriteResult.previous = none) ∧
    (Event.updateExec ∈ exWriteResult.trace ↔ exWriteResult.previous ≠ none) :=
  putObject_insert_update_exclusive exWriteEnv "b1" "k1" (.vobj []) exWriteOpts
    exWriteResult rfl

/-- The trace is still empty after the two steps preceding the pre
chain. -/
theorem first_two_steps_trace {env : Env} {b k : String} {v : JSVal} {opts : Opts}
    {r₂ : Req}
    (h2 : runSteps ((pipelineSteps env).take 2) (initReq b k v opts) = (r₂, none)) :
    r₂.trace = [] := by
  have h2' : runSteps [loadBucketStep env, selectForUpdateStep env]
      (initReq b k v opts) = (r₂, none) := h2
  rcases hs1 : loadBucketStep env (initReq b k v opts) with ⟨r1, oe1⟩
  cases oe1 with
  | some e => rw [runSteps_cons_err hs1] at h2'; simp at h2'
  | none =>
    rw [runSteps_cons_ok hs1] at h2'
    rcases hs2 : selectForUpdateStep env r1 with ⟨r2', oe2⟩
    cases oe2 with
    | some e => rw [runSteps_cons_err hs2] at h2'; simp at h2'
    | none =>
      rw [runSteps_cons_ok hs2] at h2'
      simp [runSteps] at h2'
      rw [← h2', (selectForUpdateStep_ok hs2).1, (loadBucketStep_ok hs1).1]
      simp [initReq]

/-- **C3.** The write pipeline runs its steps in the fixed order
LoadBucket, LockExistingRow (`selectForUpdate`), PreChain,
CheckPrecondition (`checkEtag`), Project (`indexObject`), Insert,
Update, PostChain (first and second conjuncts: `putObject` is exactly
the sequential run of that step list), and the first step that fails
prevents every later step from running: whenever some prefix of the
pipeline already fails, the run of that prefix followed by any
continuation whatsoever — in particular the pipeline's own remaining
steps — returns exactly the prefix's failure (third and fourth
conjuncts, for a failure at any position); in particular, when a
pre-chain hook fails, that failure is the pipeline's result and no
insert body, update body or post-chain hook has run (fifth
conjunct). -/
theorem putObject_pipeline_short_circuit (env : Env) (b k : String) (v : JSVal)
    (opts : Opts) :
    putObject env b k v opts = runSteps (pipelineSteps env) (initReq b k v opts) ∧
    pipelineSteps env =
      [loadBucketStep env, selectForUpdateStep env, runPreChain, checkEtagStep,
       indexObjectStep, insertStep env, updateStep env, postChainStep] ∧
    (∀ (n : Nat) (r' : Req) (e' : MorayError)
        (rest : List (Req → Req × Option MorayError)),
      runSteps ((pipelineSteps env).take n) (initReq b k v opts) = (r', some e') →
      runSteps ((pipelineSteps env).take n ++ rest) (initReq b k v opts) =
        (r', some e')) ∧
    (∀ (n : Nat) (r' : Req) (e' : MorayError),
      runSteps ((pipelineSteps env).take n) (initReq b k v opts) = (r', some e') →
      putObject env b k v opts = (r', some e')) ∧
    (∀ (r₂ r₃ : Req) (e : MorayError),
      runSteps ((pipelineSteps env).take 2) (initReq b k v opts) = (r₂, none) →
      runPreChain r₂ = (r₃, some e) →
      putObject env b k v opts = (r₃, some e) ∧
      Event.insertExec ∉ r₃.trace ∧ Event.updateExec ∉ r₃.trace ∧
      Event.postChainExec ∉ r₃.trace) := by
  refine ⟨rfl, rfl, ?_, ?_, ?_⟩
  · intro n r' e' rest hfail
    rw [runSteps_append, hfail]
  · intro n r' e' hfail
    exact runSteps_take_fail _ n _ _ _ hfail
  · intro r₂ r₃ e h2 h3
    have hr3 : r₃ = r₂ := runPreChain_fail h3
    have htr : r₃.trace = [] := by rw [hr3]; exact first_two_steps_trace h2
    refine ⟨?_, ?_, ?_, ?_⟩
    · show runSteps (pipelineSteps env) (initReq b k v opts) = (r₃, some e)
      have hsplit : pipelineSteps env =
          (pipelineSteps env).take 2 ++
            (runPreChain :: [checkEtagStep, indexObjectStep, insertStep env,
              updateStep env, postChainStep]) := rfl
      rw [hsplit, runSteps_append, h2]
      exact runSteps_cons_err h3
    · rw [htr]; simp
    · rw [htr]; simp
    · rw [htr]; simp

/-- A pre-chain hook that always fails. -/
def exFailHook : Hook := fun c => (c, some (.external "hook failure"))

/-- A bucket whose pre chain fails. -/
def exFailBucket : Bucket := { name := "b1", index := [], pre := [exFailHook], post := [] }

/-- An environment that loads `exFailBucket` and otherwise succeeds. -/
def exFailEnv : Env :=
  { loadBucket := fun _ => .ok exFailBucket,
    lockRow := fun _ _ => .ok none,
    insertQuery := fun _ => .ok 1,
    updateQuery := fun _ => .ok (),
    now := 0 }

/-- The request state after the two steps preceding the failing pre
chain. -/
def exFailReq2 : Req :=
  (runSteps ((pipelineSteps exFailEnv).take 2)
    (initReq "b1" "k1" (.vobj []) exWriteOpts)).1

theorem putObject_pipeline_short_circuit_witness :
    runSteps ((pipelineSteps exFailEnv).take 3 ++ [postChainStep])
      (initReq "b1" "k1" (.vobj []) exWriteOpts) =
      (exFailReq2, some (.external "hook failure")) ∧
    putObject exFailEnv "b1" "k1" (.vobj []) exWriteOpts =
      (exFailReq2, some (.external "hook failure")) ∧
    Event.insertExec ∉ exFailReq2.trace ∧ Event.updateExec ∉ exFailReq2.trace ∧
    Event.postChainExec ∉ exFailReq2.trace :=
  have t := putObject_pipeline_short_circuit exFailEnv "b1" "k1" (.vobj []) exWriteOpts
  have h5 := t.2.2.2.2 exFailReq2 exFailReq2 (.external "hook failure") rfl rfl
  ⟨t.2.2.1 3 exFailReq2 (.external "hook failure") [postChainStep] rfl,
   h5.1, h5.2.1, h5.2.2.1, h5.2.2.2⟩

/-- **C8.** The version token is a pure function of the serialized
value: `_createEtag` is `hex32 ∘ crc32` applied to `req._value`, so two
requests with equal serialized values receive equal tokens. -/
theorem createEtag_pure (r₁ r₂ : Req) (h : r₁._value = r₂._value) :
    _createEtag r₁ = _createEtag r₂ ∧ _createEtag r₁ = hex32 (crc32 r₁._value) := by
  unfold _createEtag
  rw [h]
  exact ⟨rfl, rfl⟩

/-- Two distinct requests sharing one serialized value. -/
def exEtagReqA : Req :=
  { bucket := exWriteBucket, etag := none, key := "ka", value := .vobj [],
    _value := "\x7b\x22a\x22:1\x7d", headers := [], previous := none,
    index := [], trace := [] }

/-- A request with a different key and document but the same
serialization. -/
def exEtagReqB : Req :=
  { bucket := exWriteBucket, etag := none, key := "kb", value := .vnull,
    _value := "\x7b\x22a\x22:1\x7d", headers := [], previous := none,
    index := [], trace := [] }

theorem createEtag_pure_witness :
    _createEtag exEtagReqA = _createEtag exEtagReqB ∧
    _createEtag exEtagReqA = hex32 (crc32 exEtagReqA._value) :=
  createEtag_pure exEtagReqA exEtagReqB rfl

/-- **C2 counterexample.** The claim asserts that a declared field whose
value is a scalar of mismatched type (neither null nor an array) makes
projection raise `InvalidIndexTypeError`.  On the code it does not: for
schema `(age : number)` and document `(age : "thirty")` the projection
succeeds and stringifies the mismatched scalar — the throw in `_index`
is only reachable for non-null, non-array objects. -/
theorem indexObject_scalar_mismatch_not_rejected :
    _indexObject [("age", ⟨"number"⟩)] (.vobj [("age", .vstr "thirty")]) =
      .ok [("age", "thirty")] ∧
    _indexObject [("age", ⟨"number"⟩)] (.vobj [("age", .vstr "thirty")]) ≠
      .error (.invalidIndexType "age" "number") :=
  ⟨rfl, fun h => nomatch h⟩

/-- **C2 (amended).** Projection raises `InvalidIndexTypeError` — naming
the field and the declared type — when a declared field's value is a
non-null, non-array object (and the declared type is not `"object"`);
a scalar whose type does not match the declared type is not rejected:
it is stringified into the projection like a matching scalar. -/
theorem indexSwitch_scalar (k : String) (v : JSVal) (ndx : List (String × String))
    (hscalar : jsTypeof v = "boolean" ∨ jsTypeof v = "string" ∨ jsTypeof v = "number") :
    indexSwitch k v ndx = setKey ndx k (jsPlusEmpty v) := by
  unfold indexSwitch
  rcases hscalar with hs | hs | hs <;> rw [hs] <;> rfl

/-- A value of scalar `typeof` — matching the declared type or not —
always falls through to the stringifying switch of `_index`. -/
theorem index_scalar (k t : String) (v : JSVal) (ndx : List (String × String))
    (hscalar : jsTypeof v = "boolean" ∨ jsTypeof v = "string" ∨ jsTypeof v = "number") :
    _index k v t ndx = .ok (setKey ndx k (jsPlusEmpty v)) := by
  rw [ _index.eq_def]
  have hobj : (jsTypeof v == "object") = false := by
    rcases hscalar with hs | hs | hs <;> rw [hs] <;> rfl
  by_cases hc : (!isUndefined v && (jsTypeof v != t)) = true
  · rw [if_pos hc, if_neg (by rw [hobj]; exact Bool.false_ne_true)]
    rw [indexSwitch_scalar k v ndx hscalar]
  · rw [if_neg hc, indexSwitch_scalar k v ndx hscalar]

theorem index_mismatch_behavior (k t : String) (v : JSVal)
    (fields : List (String × JSVal)) (ndx : List (String × String))
    (ht : t ≠ "object")
    (hscalar : jsTypeof v = "boolean" ∨ jsTypeof v = "string" ∨ jsTypeof v = "number")
    (hmismatch : jsTypeof v ≠ t) :
    _index k (.vobj fields) t ndx = .error (.invalidIndexType k t) ∧
    _index k v t ndx = .ok (setKey ndx k (jsPlusEmpty v)) := by
  constructor
  · have hc : (!isUndefined (JSVal.vobj fields) && (jsTypeof (JSVal.vobj fields) != t)) = true := by
      simp [isUndefined, jsTypeof]
      exact Ne.symm ht
    rw [ _index.eq_def, if_pos hc]
    rfl
  · exact index_scalar k t v ndx hscalar

theorem index_mismatch_behavior_witness :
    _index "age" (.vobj [("x", .vnum 1)]) "number" [] =
      .error (.invalidIndexType "age" "number") ∧
    _index "age" (.vstr "thirty") "number" [] = .ok [("age", "thirty")] :=
  index_mismatch_behavior "age" "number" (.vstr "thirty") [("x", .vnum 1)] []
    (by decide) (Or.inr (Or.inl rfl)) (by decide)

/-- `_index` on `null` returns the map unchanged and raises no error,
whatever the declared type. -/
theorem index_null (k t : String) (ndx : List (String × String)) :
    _index k .vnull t ndx = .ok ndx := by
  rw [ _index.eq_def]
  by_cases hc : (!isUndefined JSVal.vnull && (jsTypeof JSVal.vnull != t)) = true
  · rw [if_pos hc]
    rfl
  · rw [if_neg hc]
    rfl

theorem setKey_get_ne (ndx : List (String × String)) (k' k s : String)
    (hk : k ≠ k') : jsGet (setKey ndx k' s) k = jsGet ndx k := by
  induction ndx with
  | nil => simp [setKey, jsGet, Ne.symm hk]
  | cons kv rest ih =>
      obtain ⟨k₀, v₀⟩ := kv
      by_cases h0 : k₀ = k'
      · subst h0
        simp [setKey, jsGet, Ne.symm hk]
      · simp [setKey, jsGet, h0]
        by_cases h1 : k₀ = k <;> simp [h1, ih]

theorem indexSwitch_get_ne (k' : String) (v : JSVal) (ndx : List (String × String))
    (k : String) (hk : k ≠ k') : jsGet (indexSwitch k' v ndx) k = jsGet ndx k := by
  unfold indexSwitch
  split
  · exact setKey_get_ne ndx k' k _ hk
  · exact setKey_get_ne ndx k' k _ hk
  · exact setKey_get_ne ndx k' k _ hk
  · rfl

mutual

/-- A successful `_index` call for field `k'` never touches another
key's binding in the projection map. -/
theorem index_get_ne (k' : String) (v : JSVal) (t : String)
    (ndx out : List (String × String)) (h : _index k' v t ndx = .ok out)
    (k : String) (hk : k ≠ k') : jsGet out k = jsGet ndx k := by
  rw [ _index.eq_def] at h
  by_cases hc : (!isUndefined v && (jsTypeof v != t)) = true
  · rw [if_pos hc] at h
    by_cases ho : (jsTypeof v == "object") = true
    · rw [if_pos ho] at h
      cases v with
      | varr elems => exact indexArr_get_ne k' elems t ndx out h k hk
      | vnull =>
          cases h
          rfl
      | vundefined => exact absurd h (by simp)
      | vbool b => exact absurd h (by simp)
      | vnum n => exact absurd h (by simp)
      | vstr s => exact absurd h (by simp)
      | vobj fields => exact absurd h (by simp)
    · rw [if_neg ho] at h
      cases h
      exact indexSwitch_get_ne k' v ndx k hk
  · rw [if_neg hc] at h
    cases h
    exact indexSwitch_get_ne k' v ndx k hk

/-- As `index_get_ne`, for the element loop of an array value. -/
theorem indexArr_get_ne (k' : String) (vs : List JSVal) (t : String)
    (ndx out : List (String × String)) (h : _indexArr k' vs t ndx = .ok out)
    (k : String) (hk : k ≠ k') : jsGet out k = jsGet ndx k := by
  cases vs with
  | nil =>
      rw [_indexArr] at h
      cases h
      rfl
  | cons v rest =>
      rw [_indexArr] at h
      rcases hi : _index k' v t ndx with e | ndx' <;> rw [hi] at h
      · exact absurd h (by simp)
      · exact (indexArr_get_ne k' rest t ndx' out h k hk).trans
          (index_get_ne k' v t ndx ndx' hi k hk)

end

/-- Through the schema loop, a key whose document value is `null` never
acquires a binding in the projection map. -/
theorem indexFields_get_none (schema : List (String × IndexField)) (obj : JSVal)
    (ndx out : List (String × String)) (k : String)
    (hv : objGet obj k = .vnull) (hnd : jsGet ndx k = none)
    (h : indexFields schema obj ndx = .ok out) : jsGet out k = none := by
  induction schema generalizing ndx with
  | nil =>
      rw [indexFields] at h
      cases h
      exact hnd
  | cons kf rest ih =>
      obtain ⟨k', f⟩ := kf
      rw [indexFields] at h
      rcases hi : _index k' (objGet obj k') f.type ndx with e | ndx' <;> rw [hi] at h
      · exact absurd h (by simp)
      · refine ih ndx' ?_ h
        by_cases hkk : k = k'
        · subst hkk
          rw [hv, index_null] at hi
          cases hi
          exact hnd
        · exact (index_get_ne k' (objGet obj k') f.type ndx ndx' hi k hkk).trans hnd

/-- **C6.** For every index schema and document, a declared field whose
document value is `null` is absent from the resulting projection, and
the `null` value itself raises no error (`_index` returns the map
unchanged). -/
theorem indexObject_null_omitted (schema : List (String × IndexField))
    (object : JSVal) (k : String) (f : IndexField) (out : List (String × String))
    (hk : (k, f) ∈ schema) (hv : objGet object k = .vnull)
    (hout : _indexObject schema object = .ok out) :
    jsGet out k = none ∧ ∀ t ndx, _index k .vnull t ndx = .ok ndx := by
  refine ⟨?_, fun t ndx => index_null k t ndx⟩
  unfold _indexObject at hout
  by_cases hs : schema.length = 0
  · rw [if_pos hs] at hout
    cases hout
    rfl
  · rw [if_neg hs] at hout
    exact indexFields_get_none schema object [] out k hv rfl hout

theorem indexObject_null_omitted_witness :
    jsGet [("n", "5")] "a" = none :=
  (indexObject_null_omitted [("a", ⟨"string"⟩), ("n", ⟨"number"⟩)]
    (.vobj [("a", .vnull), ("n", .vnum 5)]) "a" ⟨"string"⟩ [("n", "5")]
    (by decide) rfl rfl).1

theorem setKey_setKey (ndx : List (String × String)) (k a b : String) :
    setKey (setKey ndx k a) k b = setKey ndx k b := by
  induction ndx with
  | nil => simp [setKey]
  | cons kv rest ih =>
      obtain ⟨k₀, v₀⟩ := kv
      by_cases h0 : k₀ = k
      · simp [setKey, h0]
      · simp [setKey, h0, ih]

/-- The element loop on a list of scalar values projects each element
in order under the same key, so the last element's string wins. -/
theorem indexArr_scalars (k t : String) (ndx : List (String × String))
    (v : JSVal) (rest : List JSVal)
    (hall : ∀ u ∈ v :: rest,
      jsTypeof u = "boolean" ∨ jsTypeof u = "string" ∨ jsTypeof u = "number") :
    _indexArr k (v :: rest) t ndx =
      .ok (setKey ndx k
        (jsPlusEmpty ((v :: rest).getLast (List.cons_ne_nil v rest)))) := by
  induction rest generalizing v ndx with
  | nil =>
      simp [_indexArr, index_scalar k t v ndx (hall v (by simp))]
  | cons w ws ih =>
      rw [_indexArr, index_scalar k t v ndx (hall v (by simp))]
      have ih' := ih (setKey ndx k (jsPlusEmpty v)) w
        (fun u hu => hall u (List.mem_cons_of_mem v hu))
      show _indexArr k (w :: ws) t (setKey ndx k (jsPlusEmpty v)) =
        Except.ok (setKey ndx k
          (jsPlusEmpty ((v :: w :: ws).getLast (List.cons_ne_nil v (w :: ws)))))
      rw [ih', setKey_setKey, List.getLast_cons (List.cons_ne_nil w ws)]

/-- **C7.** For a declared field whose document value is an array (and a
declared type other than `"object"`), projection validates and projects
every element against the same field name and type; each element
overwrites the previous entry, so the projection holds the string
representation of the last element. -/
theorem index_array_last_wins (k t : String) (ndx : List (String × String))
    (elems : List JSVal) (ht : t ≠ "object") (hne : elems ≠ [])
    (hall : ∀ v ∈ elems,
      jsTypeof v = "boolean" ∨ jsTypeof v = "string" ∨ jsTypeof v = "number") :
    _index k (.varr elems) t ndx =
      .ok (setKey ndx k (jsPlusEmpty (elems.getLast hne))) := by
  have hc : (!isUndefined (JSVal.varr elems) && (jsTypeof (JSVal.varr elems) != t)) = true := by
    simp [isUndefined, jsTypeof]
    exact Ne.symm ht
  rw [ _index.eq_def, if_pos hc, if_pos (by rfl)]
  cases elems with
  | nil => exact absurd rfl hne
  | cons v rest => exact indexArr_scalars k t ndx v rest hall

theorem index_array_last_wins_witness :
    _index "tag" (.varr [.vstr "a", .vstr "b"]) "string" [] = .ok [("tag", "b")] :=
  index_array_last_wins "tag" "string" [] [.vstr "a", .vstr "b"] (by decide)
    (List.cons_ne_nil _ _) (by decide)

/-! ## Characterizations of the statement builders -/

/-- The declared types whose `update` switch pushes a bound value
(any other declared type appends a placeholder but pushes nothing). -/
def pushesVal (f : IndexField) : Bool :=
  f.type == "boolean" || f.type == "number" || f.type == "string"

/-- The value the `update` builder binds for one declared field, if
any: only a truthy projected string is bound, encoded by the declared
type — boolean as the upper-cased text, number through `parseInt`,
string unchanged. -/
def encodeUpdateCol (ndx : List (String × String)) (kf : String × IndexField) :
    Option SqlVal :=
  if jsTruthy (jsGet ndx kf.1) then
    match kf.2.type with
    | "boolean" => some (.str ((jsGet ndx kf.1).getD "").toUpper)
    | "number" => some (jsParseIntVal ((jsGet ndx kf.1).getD ""))
    | "string" => some (.str ((jsGet ndx kf.1).getD ""))
    | _ => none
  else none

/-- Concatenation of a list of strings. -/
def catStrings : List String → String
  | [] => ""
  | s :: rest => s ++ catStrings rest

/-- The `SET` fragment the `update` builder emits for each declared
field, given the number of parameters already bound: a placeholder for
a truthy projected value, an explicit `NULL` otherwise. -/
def extraFrags : List (String × IndexField) → List (String × String) → Nat →
    List String
  | [], _, _ => []
  | (k, f) :: rest, ndx, n =>
      (if jsTruthy (jsGet ndx k) then ", " ++ k ++ "=$" ++ Nat.repr (n + 1)
       else ", " ++ k ++ "=NULL") ::
        extraFrags rest ndx (if jsTruthy (jsGet ndx k) && pushesVal f then n + 1 else n)

/-- The number of parameters bound before field `i` of the schema is
processed, starting from `n`. -/
def updSlot (l : List (String × IndexField)) (ndx : List (String × String))
    (n i : Nat) : Nat :=
  n + ((l.take i).filter (fun kf => jsTruthy (jsGet ndx kf.1) && pushesVal kf.2)).length

theorem updateCols_vals (l : List (String × IndexField))
    (ndx : List (String × String)) (extra : String) (vals : List SqlVal) :
    (updateCols l ndx extra vals).2 = vals ++ l.filterMap (encodeUpdateCol ndx) := by
  induction l generalizing extra vals with
  | nil => simp [updateCols]
  | cons kf rest ih =>
      obtain ⟨k, f⟩ := kf
      rw [updateCols]
      by_cases ht : jsTruthy (jsGet ndx k)
      · rw [if_pos ht]
        by_cases hb : f.type = "boolean"
        · simp [ih, hb, List.filterMap_cons, encodeUpdateCol, ht]
        · by_cases hn : f.type = "number"
          · simp [ih, hb, hn, List.filterMap_cons, encodeUpdateCol, ht]
          · by_cases hs : f.type = "string"
            · simp [ih, hb, hn, hs, List.filterMap_cons, encodeUpdateCol, ht]
            · have henc : encodeUpdateCol ndx (k, f) = none := by
                unfold encodeUpdateCol
                rw [if_pos ht]
                split <;> simp_all
              have hvals : (match f.type with
                  | "boolean" => vals ++ [SqlVal.str ((jsGet ndx k).getD "").toUpper]
                  | "number" => vals ++ [jsParseIntVal ((jsGet ndx k).getD "")]
                  | "string" => vals ++ [SqlVal.str ((jsGet ndx k).getD "")]
                  | _ => vals) = vals := by
                split <;> simp_all
              dsimp only
              rw [hvals, ih, List.filterMap_cons, henc]
      · rw [if_neg ht, ih, List.filterMap_cons]
        have henc : encodeUpdateCol ndx (k, f) = none := by
          unfold encodeUpdateCol
          rw [if_neg ht]
        rw [henc]

theorem updateCols_extra (l : List (String × IndexField))
    (ndx : List (String × String)) (extra : String) (vals : List SqlVal) :
    (updateCols l ndx extra vals).1 =
      extra ++ catStrings (extraFrags l ndx vals.length) := by
  induction l generalizing extra vals with
  | nil => simp [updateCols, extraFrags, catStrings]
  | cons kf rest ih =>
      obtain ⟨k, f⟩ := kf
      rw [updateCols]
      by_cases ht : jsTruthy (jsGet ndx k)
      · rw [if_pos ht]
        dsimp only
        by_cases hb : f.type = "boolean"
        · simp [ih, hb, extraFrags, catStrings, ht, pushesVal, String.append_assoc]
        · by_cases hn : f.type = "number"
          · simp [ih, hb, hn, extraFrags, catStrings, ht, pushesVal,
              String.append_assoc]
          · by_cases hs : f.type = "string"
            · simp [ih, hb, hn, hs, extraFrags, catStrings, ht, pushesVal,
                String.append_assoc]
            · have hvals : (match f.type with
                  | "boolean" => vals ++ [SqlVal.str ((jsGet ndx k).getD "").toUpper]
                  | "number" => vals ++ [jsParseIntVal ((jsGet ndx k).getD "")]
                  | "string" => vals ++ [SqlVal.str ((jsGet ndx k).getD "")]
                  | _ => vals) = vals := by
                split <;> simp_all
              have hpush : pushesVal f = false := by
                simp [pushesVal, hb, hn, hs]
              rw [hvals, ih]
              simp [extraFrags, catStrings, ht, hpush, String.append_assoc]
      · rw [if_neg ht, ih]
        simp [extraFrags, catStrings, ht, String.append_assoc]

theorem extraFrags_length (l : List (String × IndexField))
    (ndx : List (String × String)) (n : Nat) :
    (extraFrags l ndx n).length = l.length := by
  induction l generalizing n with
  | nil => rfl
  | cons kf rest ih =>
      obtain ⟨k, f⟩ := kf
      simp [extraFrags, ih]

theorem extraFrags_get (l : List (String × IndexField))
    (ndx : List (String × String)) (n i : Nat) (h : i < l.length)
    (h2 : i < (extraFrags l ndx n).length) :
    (extraFrags l ndx n).get ⟨i, h2⟩ =
      (if jsTruthy (jsGet ndx (l.get ⟨i, h⟩).1) then
        ", " ++ (l.get ⟨i, h⟩).1 ++ "=$" ++ Nat.repr (updSlot l ndx n i + 1)
       else ", " ++ (l.get ⟨i, h⟩).1 ++ "=NULL") := by
  induction l generalizing n i with
  | nil => exact absurd h (by simp)
  | cons kf rest ih =>
      obtain ⟨k, f⟩ := kf
      cases i with
      | zero => simp [extraFrags, updSlot]
      | succ j =>
          have hj : j < rest.length := by
            simpa using h
          have hj2 : j < (extraFrags rest ndx
              (if jsTruthy (jsGet ndx k) && pushesVal f then n + 1 else n)).length := by
            rw [extraFrags_length]
            exact hj
          have := ih (if jsTruthy (jsGet ndx k) && pushesVal f then n + 1 else n)
            j hj hj2
          simp only [extraFrags, List.get_cons_succ]
          rw [this]
          have hslot : updSlot ((k, f) :: rest) ndx n (j + 1) =
              updSlot rest ndx
                (if jsTruthy (jsGet ndx k) && pushesVal f then n + 1 else n) j := by
            unfold updSlot
            by_cases hp : (jsTruthy (jsGet ndx k) && pushesVal f) = true <;>
              simp [List.take_succ_cons, List.filter, hp] <;> omega
          rw [hslot]

/-- The `sql` text and `values` of the built update statement, in terms
of the per-field fragments and encodings. -/
theorem buildUpdate_sql_vals (req : Req) (now : Nat) :
    (buildUpdate req now).sql =
      "UPDATE " ++ req.bucket.name ++ " SET _value=$1, _etag=$2" ++
        catStrings (extraFrags req.bucket.index req.index 2) ++
        ", _mtime=" ++ Nat.repr now ++ " WHERE _key=\x27" ++ req.key ++ "\x27" ∧
    (buildUpdate req now).values =
      [.str req._value, .str (_createEtag req)] ++
        req.bucket.index.filterMap (encodeUpdateCol req.index) := by
  have hex := updateCols_extra req.bucket.index req.index ""
    [SqlVal.str req._value, SqlVal.str (_createEtag req)]
  have hvl := updateCols_vals req.bucket.index req.index ""
    [SqlVal.str req._value, SqlVal.str (_createEtag req)]
  rcases hu : updateCols req.bucket.index req.index ""
    [SqlVal.str req._value, SqlVal.str (_createEtag req)] with ⟨extra, vals⟩
  rw [hu] at hex hvl
  unfold buildUpdate
  dsimp only
  rw [hu]
  dsimp only at hex hvl ⊢
  constructor
  · rw [hex]
    simp [String.append_assoc]
  · exact hvl

theorem insertCols_vals (l : List (String × String)) (vals : List SqlVal)
    (keyStr valStr : String) :
    (insertCols l vals keyStr valStr).2.2 =
      vals ++ l.map (fun kv => SqlVal.str kv.2) := by
  induction l generalizing vals keyStr valStr with
  | nil => simp [insertCols]
  | cons kv rest ih =>
      obtain ⟨k, v⟩ := kv
      rw [insertCols]
      rw [ih]
      simp

/-- The bound parameter list of the built insert statement: the four
base columns followed by the projected index strings, unchanged. -/
theorem buildInsert_vals (req : Req) (now : Nat) :
    (buildInsert req now).values =
      [.str req.key, .str req._value, .str (_createEtag req), .num now] ++
        req.index.map (fun kv => SqlVal.str kv.2) := by
  have hvl := insertCols_vals req.index
    [SqlVal.str req.key, SqlVal.str req._value, SqlVal.str (_createEtag req),
      SqlVal.num now] "" ""
  rcases hu : insertCols req.index
    [SqlVal.str req.key, SqlVal.str req._value, SqlVal.str (_createEtag req),
      SqlVal.num now] "" "" with ⟨keyStr, valStr, values⟩
  rw [hu] at hvl
  unfold buildInsert
  dsimp only
  rw [hu]
  exact hvl

/-- A request in the insert path whose single declared field is a
boolean, already projected (as the lowercase string `"true"`). -/
def exBoolReq : Req :=
  { bucket := { name := "b1", index := [("flag", ⟨"boolean"⟩)], pre := [], post := [] },
    etag := none, key := "k1", value := .vobj [("flag", .vbool true)],
    _value := "x", headers := [], previous := none,
    index := [("flag", "true")], trace := [] }

/-- **C4 counterexample.** The claim asserts that for every statement
built for a write — insert or update — indexed values are encoded by
their declared type (booleans as an uppercase textual literal).  The
insert builder does not encode: for a declared boolean field projected
as `"true"`, the insert statement binds the lowercase projected string
`"true"`, and no uppercase `"TRUE"` is bound anywhere. -/
theorem insert_binds_projection_not_encoded :
    _indexObject exBoolReq.bucket.index exBoolReq.value = .ok [("flag", "true")] ∧
    (buildInsert exBoolReq 0).values =
      [.str "k1", .str "x", .str (hex32 (crc32 "x")), .num 0, .str "true"] ∧
    SqlVal.str "TRUE" ∉ (buildInsert exBoolReq 0).values := by
  refine ⟨rfl, rfl, ?_⟩
  decide

/-- **C4 (amended).** Only the update statement encodes indexed values
by their declared type before binding — boolean as the upper-cased
textual literal, number through `parseInt(..., 10)`, string unchanged
(first conjunct, via `encodeUpdateCol`, and spelt out per declared
type in the third conjunct: each truthy projected value is bound
upper-cased / parsed / unchanged according to its declared type); the
insert statement binds each projected string representation unchanged,
with no type-specific encoding (second conjunct). -/
theorem statement_value_encoding (req : Req) (now : Nat) :
    ((buildUpdate req now).values =
      [.str req._value, .str (_createEtag req)] ++
        req.bucket.index.filterMap (encodeUpdateCol req.index)) ∧
    ((buildInsert req now).values =
      [.str req.key, .str req._value, .str (_createEtag req), .num now] ++
        req.index.map (fun kv => SqlVal.str kv.2)) ∧
    (∀ (k : String) (f : IndexField) (s : String),
      (k, f) ∈ req.bucket.index → jsGet req.index k = some s → s ≠ "" →
      (f.type = "boolean" → SqlVal.str s.toUpper ∈ (buildUpdate req now).values) ∧
      (f.type = "number" → jsParseIntVal s ∈ (buildUpdate req now).values) ∧
      (f.type = "string" → SqlVal.str s ∈ (buildUpdate req now).values)) := by
  refine ⟨(buildUpdate_sql_vals req now).2, buildInsert_vals req now, ?_⟩
  intro k f s hmem hget hne
  have hmem' : ∀ enc, encodeUpdateCol req.index (k, f) = some enc →
      enc ∈ (buildUpdate req now).values := by
    intro enc henc
    rw [(buildUpdate_sql_vals req now).2]
    exact List.mem_append_right _ (List.mem_filterMap.mpr ⟨(k, f), hmem, henc⟩)
  refine ⟨?_, ?_, ?_⟩ <;> intro hty <;>
    exact hmem' _ (by simp [encodeUpdateCol, hget, jsTruthy, hne, hty])

/-- A bucket declaring one field of each encodable type. -/
def exEncBucket : Bucket :=
  { name := "b1",
    index := [("ok", ⟨"boolean"⟩), ("age", ⟨"number"⟩), ("mail", ⟨"string"⟩)],
    pre := [], post := [] }

/-- A request in the update path whose projection holds one value per
declared type. -/
def exEncReq : Req :=
  { bucket := exEncBucket,
    etag := none, key := "k1",
    value := .vobj [("ok", .vbool true), ("age", .vnum 30), ("mail", .vstr "a@b")],
    _value := "x", headers := [],
    previous := some { key := "k1", _value := "o", _etag := "t", _id := 1 },
    index := [("ok", "true"), ("age", "30"), ("mail", "a@b")], trace := [] }

theorem statement_value_encoding_witness :
    SqlVal.str ("true".toUpper) ∈ (buildUpdate exEncReq 0).values ∧
    jsParseIntVal "30" ∈ (buildUpdate exEncReq 0).values ∧
    SqlVal.str "a@b" ∈ (buildUpdate exEncReq 0).values :=
  have t := (statement_value_encoding exEncReq 0).2.2
  ⟨(t "ok" ⟨"boolean"⟩ "true" (by decide) rfl (by decide)).1 rfl,
   (t "age" ⟨"number"⟩ "30" (by decide) rfl (by decide)).2.1 rfl,
   (t "mail" ⟨"string"⟩ "a@b" (by decide) rfl (by decide)).2.2 rfl⟩

/-- **C5.** The built update statement sets the serialized value
(`$1`), the etag (`$2`), the modification timestamp, and one `SET`
fragment per declared index field, in schema order; a declared field
whose projected value is not truthy is set to an explicit `NULL`
rather than left untouched. -/
theorem update_sets_all_columns (req : Req) (now : Nat) (i : Nat)
    (h : i < req.bucket.index.length)
    (h2 : i < (extraFrags req.bucket.index req.index 2).length) :
    (buildUpdate req now).sql =
      "UPDATE " ++ req.bucket.name ++ " SET _value=$1, _etag=$2" ++
        catStrings (extraFrags req.bucket.index req.index 2) ++
        ", _mtime=" ++ Nat.repr now ++ " WHERE _key=\x27" ++ req.key ++ "\x27" ∧
    (buildUpdate req now).values.take 2 =
      [.str req._value, .str (_createEtag req)] ∧
    (extraFrags req.bucket.index req.index 2).length = req.bucket.index.length ∧
    (extraFrags req.bucket.index req.index 2).get ⟨i, h2⟩ =
      (if jsTruthy (jsGet req.index (req.bucket.index.get ⟨i, h⟩).1) then
        ", " ++ (req.bucket.index.get ⟨i, h⟩).1 ++ "=$" ++
          Nat.repr (updSlot req.bucket.index req.index 2 i + 1)
       else ", " ++ (req.bucket.index.get ⟨i, h⟩).1 ++ "=NULL") := by
  refine ⟨(buildUpdate_sql_vals req now).1, ?_,
    extraFrags_length req.bucket.index req.index 2,
    extraFrags_get req.bucket.index req.index 2 i h h2⟩
  rw [(buildUpdate_sql_vals req now).2]
  rfl

/-- A request in the update path: one string field projected normally,
one number field absent from the projection. -/
def exUpdBucket : Bucket :=
  { name := "b1", index := [("mail", ⟨"string"⟩), ("age", ⟨"number"⟩)],
    pre := [], post := [] }

def exUpdReq : Req :=
  { bucket := exUpdBucket,
    etag := none, key := "k1", value := .vobj [("mail", .vstr "a@b")],
    _value := "x", headers := [],
    previous := some { key := "k1", _value := "o", _etag := "t", _id := 1 },
    index := [("mail", "a@b")], trace := [] }

theorem update_sets_all_columns_witness :
    (buildUpdate exUpdReq 9).sql =
      "UPDATE " ++ exUpdReq.bucket.name ++ " SET _value=$1, _etag=$2" ++
        catStrings (extraFrags exUpdReq.bucket.index exUpdReq.index 2) ++
        ", _mtime=" ++ Nat.repr 9 ++ " WHERE _key=\x27" ++ exUpdReq.key ++ "\x27" ∧
    (buildUpdate exUpdReq 9).values.take 2 =
      [.str exUpdReq._value, .str (_createEtag exUpdReq)] ∧
    (extraFrags exUpdReq.bucket.index exUpdReq.index 2).length =
      exUpdReq.bucket.index.length ∧
    (extraFrags exUpdReq.bucket.index exUpdReq.index 2).get ⟨1, by decide⟩ =
      (if jsTruthy (jsGet exUpdReq.index (exUpdReq.bucket.index.get ⟨1, by decide⟩).1) then
        ", " ++ (exUpdReq.bucket.index.get ⟨1, by decide⟩).1 ++ "=$" ++
          Nat.repr (updSlot exUpdReq.bucket.index exUpdReq.index 2 1 + 1)
       else ", " ++ (exUpdReq.bucket.index.get ⟨1, by decide⟩).1 ++ "=NULL") :=
  update_sets_all_columns exUpdReq 9 1 (by decide) (by decide)

/-- Delete every binding of a key from the projection map. -/
def removeKey : List (String × String) → String → List (String × String)
  | [], _ => []
  | (k', v) :: rest, k =>
      if k' = k then removeKey rest k else (k', v) :: removeKey rest k

theorem jsGet_removeKey (ndx : List (String × String)) (k k' : String) :
    jsGet (removeKey ndx k) k' = if k' = k then none else jsGet ndx k' := by
  induction ndx with
  | nil => simp [removeKey, jsGet]
  | cons kv rest ih =>
      obtain ⟨k₀, v₀⟩ := kv
      rw [removeKey]
      by_cases h0 : k₀ = k
      · rw [if_pos h0, ih]
        by_cases h1 : k' = k
        · simp [h1]
        · have h2 : ¬k₀ = k' := fun hh => h1 (hh.symm.trans h0)
          simp [h1, jsGet, h2]
      · rw [if_neg h0, jsGet, ih]
        by_cases h1 : k₀ = k'
        · have h2 : ¬k' = k := fun hh => h0 (h1.trans hh)
          simp [h1, h2, jsGet]
        · by_cases h2 : k' = k <;> simp [h1, h2, h0, jsGet]

/-- The update builder reads the projection map only through truthiness
and the (defaulted) looked-up string of each declared key. -/
theorem updateCols_congr (l : List (String × IndexField))
    (ndx ndx' : List (String × String)) (extra : String) (vals : List SqlVal)
    (h : ∀ kf ∈ l, jsTruthy (jsGet ndx kf.1) = jsTruthy (jsGet ndx' kf.1) ∧
      (jsGet ndx kf.1).getD "" = (jsGet ndx' kf.1).getD "") :
    updateCols l ndx extra vals = updateCols l ndx' extra vals := by
  induction l generalizing extra vals with
  | nil => rfl
  | cons kf rest ih =>
      obtain ⟨k, f⟩ := kf
      obtain ⟨h1, h2⟩ := h (k, f) (List.mem_cons_self _ _)
      rw [updateCols, updateCols]
      dsimp only at h1 h2 ⊢
      rw [h1, h2]
      have ih' := fun extra vals =>
        ih extra vals (fun kf hkf => h kf (List.mem_cons_of_mem _ hkf))
      by_cases ht : jsTruthy (jsGet ndx' k)
      · rw [if_pos ht, if_pos ht, ih']
      · rw [if_neg ht, if_neg ht, ih']

/-- **C9.** The update path tests presence of a projected index value
by JavaScript truthiness of the projected string.  A declared
string-typed field whose document value is the empty string projects to
`""` (first conjunct), which is falsy, so its `SET` fragment is an
explicit `NULL` (second conjunct) and the whole built update statement
is identical to the one built with the field deleted from the
projection (third conjunct) — indistinguishable from an absent field. -/
theorem update_empty_string_null (req : Req) (now : Nat) (k : String) (i : Nat)
    (hv : jsGet req.index k = some "")
    (h : i < req.bucket.index.length)
    (h2 : i < (extraFrags req.bucket.index req.index 2).length)
    (hk : (req.bucket.index.get ⟨i, h⟩).1 = k) :
    (∀ ndx, _index k (.vstr "") "string" ndx = .ok (setKey ndx k "")) ∧
    (extraFrags req.bucket.index req.index 2).get ⟨i, h2⟩ =
      ", " ++ k ++ "=NULL" ∧
    buildUpdate req now = buildUpdate { req with index := removeKey req.index k } now := by
  refine ⟨fun ndx => index_scalar k "string" (.vstr "") ndx (Or.inr (Or.inl rfl)),
    ?_, ?_⟩
  · rw [extraFrags_get req.bucket.index req.index 2 i h h2, hk, hv]
    rfl
  · have hh : ∀ kf ∈ req.bucket.index,
        jsTruthy (jsGet req.index kf.1) =
          jsTruthy (jsGet (removeKey req.index k) kf.1) ∧
        (jsGet req.index kf.1).getD "" =
          (jsGet (removeKey req.index k) kf.1).getD "" := by
      intro kf _
      rw [jsGet_removeKey]
      by_cases hkk : kf.1 = k
      · rw [if_pos hkk, hkk, hv]
        exact ⟨rfl, rfl⟩
      · rw [if_neg hkk]
        exact ⟨rfl, rfl⟩
    unfold buildUpdate
    dsimp only
    rw [updateCols_congr req.bucket.index req.index (removeKey req.index k) ""
      [SqlVal.str req._value, SqlVal.str (_createEtag req)] hh]
    simp [_createEtag]

/-- A request in the update path whose single declared string field was
projected from the empty string. -/
def exEmptyReq : Req :=
  { bucket := { name := "b1", index := [("name", ⟨"string"⟩)], pre := [], post := [] },
    etag := none, key := "k1", value := .vobj [("name", .vstr "")],
    _value := "x", headers := [],
    previous := some { key := "k1", _value := "o", _etag := "t", _id := 1 },
    index := [("name", "")], trace := [] }

theorem update_empty_string_null_witness :
    (extraFrags exEmptyReq.bucket.index exEmptyReq.index 2).get ⟨0, by decide⟩ =
      ", " ++ "name" ++ "=NULL" ∧
    buildUpdate exEmptyReq 7 =
      buildUpdate { exEmptyReq with index := removeKey exEmptyReq.index "name" } 7 :=
  (update_empty_string_null exEmptyReq 7 "name" 0 rfl (by decide) (by decide) rfl).2

/-- **C10.** With an empty pre chain, `runPreChain` returns immediately
and `req._value` stays exactly the caller-supplied `opts._value`
(first conjunct); that caller-supplied serialization — whatever its
relation to the value document — is what the statement builders bind
and what is hashed into the etag (third to fifth conjuncts); only when
a non-empty pre chain completes successfully is the serialization
recomputed as `JSON.stringify` of the possibly hook-mutated value
(second conjunct). -/
theorem prechain_value_passthrough (req : Req) (c : HookCookie) (now : Nat)
    (hc : runHooks req.bucket.pre (cookieOf req) = (c, none)) :
    (req.bucket.pre.length = 0 → runPreChain req = (req, none)) ∧
    (req.bucket.pre.length ≠ 0 →
      runPreChain req =
        ({ req with key := c.key, value := c.value,
                    _value := jsonStringify c.value }, none)) ∧
    (buildInsert req now).values.get? 1 = some (.str req._value) ∧
    (buildUpdate req now).values.get? 0 = some (.str req._value) ∧
    _createEtag req = hex32 (crc32 req._value) := by
  refine ⟨?_, ?_, ?_, ?_, rfl⟩
  · intro h0
    simp [runPreChain, h0]
  · intro hne
    unfold runPreChain
    rw [if_neg hne, hc]
  · rw [buildInsert_vals]
    rfl
  · rw [(buildUpdate_sql_vals req now).2]
    rfl

theorem prechain_value_passthrough_witness :
    runPreChain exEtagReqA = (exEtagReqA, none) ∧
    (buildInsert exEtagReqA 3).values.get? 1 = some (.str exEtagReqA._value) ∧
    (buildUpdate exEtagReqA 3).values.get? 0 = some (.str exEtagReqA._value) ∧
    _createEtag exEtagReqA = hex32 (crc32 exEtagReqA._value) :=
  have t := prechain_value_passthrough exEtagReqA (cookieOf exEtagReqA) 3 rfl
  ⟨t.1 rfl, t.2.2.1, t.2.2.2.1, t.2.2.2.2⟩
